import Mathlib

/-!
Shallow embedding of the VistaTrek trip-planning core, translated from the
Python sources:

* `src/backend/app/services/trip_planner.py`  (meso-point count, POI merge)
* `src/backend/app/utils/geo.py`              (interpolate_along_route)
* `src/backend/main.py` / `src/api/index.py`  (find_golden_clusters scoring)
* `src/backend/app/services/constraint_solver.py` (ConstraintSolver)

Machine reals (Python floats) are modelled as rationals; transcendental
distance functions (haversine, geopy geodesic) are opaque parameters, since
none of the verified properties depends on their numeric values.
-/

namespace VistaTrek

/-- A latitude/longitude pair (Python dict `{"lat": .., "lon": ..}` /
pydantic `Coordinates`). -/
structure Coordinates where
  lat : ℚ
  lon : ℚ
deriving DecidableEq, Repr

/-! ## Meso-point count — `TripPlannerService._calculate_meso_count`

```python
distance_km = distance_meters / 1000
count = int(distance_km / 30)
return max(2, min(8, count))
```
Python `int()` truncates toward zero. -/

/-- Python `int()` applied to a rational: truncation toward zero. -/
def pyInt (q : ℚ) : ℤ :=
  if q < 0 then -(Int.floor (-q)) else Int.floor q

/-- `TripPlannerService._calculate_meso_count` from
`src/backend/app/services/trip_planner.py`. -/
def calculate_meso_count (distance_meters : ℚ) : ℤ :=
  max 2 (min 8 (pyInt (distance_meters / 1000 / 30)))

/-- The count formula as worded by the spec: `clamp(round(distanceKm / 30), 2, 8)`,
with `round` as round-half-up (agrees with all rounding conventions away from
half-integers). Stated from the spec for comparison with the source formula. -/
def specMesoCount (distance_meters : ℚ) : ℤ :=
  max 2 (min 8 (Int.floor (distance_meters / 1000 / 30 + 1/2)))

/-! ## Route interpolation — `interpolate_along_route` (`src/backend/app/utils/geo.py`)

The pairwise haversine distance is an opaque parameter `dist`. -/

/-- Interior walk of `interpolate_along_route`: find the segment whose
cumulative span reaches `target` and linearly interpolate inside it; if the
loop runs off the end, return the last coordinate. `segs` pairs each segment
with its distance. -/
def interpWalk (last : Coordinates) (target : ℚ) :
    ℚ → List ((Coordinates × Coordinates) × ℚ) → Coordinates
  | _, [] => last
  | cumulative, (seg, segDist) :: rest =>
      if cumulative + segDist ≥ target then
        let segFraction := if segDist > 0 then (target - cumulative) / segDist else 0
        ⟨seg.1.lat + (seg.2.lat - seg.1.lat) * segFraction,
         seg.1.lon + (seg.2.lon - seg.1.lon) * segFraction⟩
      else
        interpWalk last target (cumulative + segDist) rest

/-- `interpolate_along_route` from `src/backend/app/utils/geo.py`.
`dist` stands for `haversine_distance`. Returns `.error` exactly where the
Python raises `ValueError`. -/
def interpolate_along_route (dist : Coordinates → Coordinates → ℚ)
    (route_coords : List Coordinates) (fraction : ℚ) : Except String Coordinates :=
  match route_coords with
  | [] => .error "Route must have at least one coordinate"
  | c :: cs =>
      if fraction ≤ 0 then .ok c
      else if fraction ≥ 1 then .ok ((c :: cs).getLast (by simp))
      else
        let pairs := (c :: cs).zip cs
        let segs := pairs.map (fun p => (p, dist p.1 p.2))
        let totalDist := (segs.map (·.2)).sum
        let target := totalDist * fraction
        .ok (interpWalk ((c :: cs).getLast (by simp)) target 0 segs)

/-! ## Golden-cluster scoring — `find_golden_clusters`
(`src/backend/main.py` and `src/api/index.py`; the two copies share the
base-50 scoring logic verbatim)

Elements arrive from Overpass already parsed into items carrying an id,
coordinates, tags and a display name. The geodesic distance in meters is an
opaque parameter `dist`. -/

/-- The OSM tags the scorer reads (`tourism`, `natural`, `amenity`). -/
structure Tags where
  tourism : Option String
  natural : Option String
  amenity : Option String
deriving DecidableEq, Repr

/-- A parsed Overpass element (`item` dict in the source). -/
structure Item where
  id : ℤ
  lat : ℚ
  lon : ℚ
  tags : Tags
  name : Option String
deriving DecidableEq, Repr

/-- Result model `GoldenSpot` (pydantic) from `src/backend/main.py`. -/
structure GoldenSpot where
  id : ℤ
  name : Option String
  lat : ℚ
  lon : ℚ
  score : ℤ
  tags : Tags
  reasons : List String
deriving DecidableEq, Repr

/-- Python truthiness of an optional string (`if anchor.get("name"):`). -/
def strTruthy : Option String → Bool
  | some s => !(s == "")
  | none => false

def itemPos (it : Item) : Coordinates := ⟨it.lat, it.lon⟩

/-- `tags.get("tourism") == "viewpoint" or tags.get("natural") == "spring"`. -/
def isAnchorItem (it : Item) : Bool :=
  it.tags.tourism == some "viewpoint" || it.tags.natural == some "spring"

/-- `elif tags.get("amenity") == "parking"`. -/
def isParkingItem (it : Item) : Bool :=
  !isAnchorItem it && (it.tags.amenity == some "parking")

/-- `elif tags.get("amenity") in ("cafe", "bench")`. -/
def isComfortItem (it : Item) : Bool :=
  !isAnchorItem it && !(it.tags.amenity == some "parking") &&
    (it.tags.amenity == some "cafe" || it.tags.amenity == some "bench")

def anchorsOf (items : List Item) : List Item := items.filter isAnchorItem

def parkingOf (items : List Item) : List Item := items.filter isParkingItem

def comfortsOf (items : List Item) : List Item := items.filter isComfortItem

/-- Accumulator of the comforts loop (`has_cafe`, `has_bench`, `score`,
`reasons`). -/
structure ScoreAcc where
  has_cafe : Bool
  has_bench : Bool
  score : ℤ
  reasons : List String
deriving DecidableEq, Repr

/-- One iteration of the comforts loop of `find_golden_clusters`. -/
def comfortStep (dist : Coordinates → Coordinates → ℚ) (apos : Coordinates)
    (st : ScoreAcc) (c : Item) : ScoreAcc :=
  if dist apos (itemPos c) ≤ 200 then
    if c.tags.amenity == some "cafe" && !st.has_cafe then
      { st with has_cafe := true, score := st.score + 30,
                reasons := st.reasons ++ ["☕ יש קפה!"] }
    else if c.tags.amenity == some "bench" && !st.has_bench then
      { st with has_bench := true, score := st.score + 10,
                reasons := st.reasons ++ ["🪑 ספסל לנוח"] }
    else st
  else st

/-- The per-anchor body of `find_golden_clusters`: base 50, parking bonus
(first parking within 400 m, `break`), comforts loop, name bonus. -/
def scoreItem (dist : Coordinates → Coordinates → ℚ)
    (parking_spots comforts : List Item) (anchor : Item) : GoldenSpot :=
  let reasons0 : List String :=
    if anchor.tags.tourism == some "viewpoint" then ["יעד יפה"]
    else if anchor.tags.natural == some "spring" then ["מעיין טבעי"]
    else []
  let hasParking := parking_spots.any (fun p => decide (dist (itemPos anchor) (itemPos p) ≤ 400))
  let score1 : ℤ := 50 + (if hasParking then 20 else 0)
  let reasons1 := reasons0 ++ (if hasParking then ["🅿️ חניה קרובה"] else [])
  let acc := comforts.foldl (comfortStep dist (itemPos anchor))
    ⟨false, false, score1, reasons1⟩
  let named := strTruthy anchor.name
  { id := anchor.id, name := anchor.name, lat := anchor.lat, lon := anchor.lon,
    score := acc.score + (if named then 10 else 0), tags := anchor.tags,
    reasons := if named then anchor.name.getD "" :: acc.reasons else acc.reasons }

/-- Stable descending insertion: keeps `y` before `x` only when `key y` is
strictly larger, so earlier input elements precede later equal-keyed ones. -/
def insertDescBy (key : α → ℤ) (x : α) : List α → List α
  | [] => [x]
  | y :: ys => if key x < key y then y :: insertDescBy key x ys else x :: y :: ys

/-- Stable descending sort by `key`; computes the same list as Python's
stable `list.sort(key=key, reverse=True)`. -/
def sortDescBy (key : α → ℤ) : List α → List α
  | [] => []
  | x :: xs => insertDescBy key x (sortDescBy key xs)

/-- The unsorted per-anchor spot list built by the anchors loop. -/
def spotsOf (dist : Coordinates → Coordinates → ℚ) (items : List Item) :
    List GoldenSpot :=
  (anchorsOf items).map (scoreItem dist (parkingOf items) (comfortsOf items))

/-- `find_golden_clusters` scoring pipeline from `src/backend/main.py` /
`src/api/index.py`: score every anchor, sort descending by score (stable),
return the top 5. -/
def find_golden_clusters (dist : Coordinates → Coordinates → ℚ)
    (items : List Item) : List GoldenSpot :=
  (sortDescBy GoldenSpot.score (spotsOf dist items)).take 5

/-! ## POI aggregation — `TripPlannerService._find_micro_gems`
(`src/backend/app/services/trip_planner.py`)

Per meso-point the external search returns a list of POIs; the aggregator
keeps a pool keyed by `osm_id` (a Python dict, insertion-ordered) and inserts
a POI only when its id is not yet present, annotating it with its distance
from the meso-point it was first discovered at. -/

/-- The pydantic `POI` fields the aggregator touches. -/
structure POI where
  id : String
  osm_id : ℤ
  name : String
  type : String
  coordinates : Coordinates
  distance_from_route_km : Option ℚ
deriving DecidableEq, Repr

/-- `poi.osm_id in all_pois` on the insertion-ordered pool. -/
def poolHas (pool : List POI) (oid : ℤ) : Bool :=
  pool.any (fun p => p.osm_id == oid)

/-- `poi.distance_from_route_km = haversine_distance(meso, poi.coordinates) / 1000`. -/
def annotate (dist : Coordinates → Coordinates → ℚ) (meso : Coordinates)
    (p : POI) : POI :=
  { p with distance_from_route_km := some (dist meso p.coordinates / 1000) }

/-- Body of the inner loop of `_find_micro_gems`. -/
def mergeStep (dist : Coordinates → Coordinates → ℚ) (pool : List POI)
    (mp : Coordinates × POI) : List POI :=
  if poolHas pool mp.2.osm_id then pool else pool ++ [annotate dist mp.1 mp.2]

/-- The nested `for meso / for poi` loops, flattened into one stream of
(meso-point, POI) pairs in query order. -/
def poiStream (batches : List (Coordinates × List POI)) :
    List (Coordinates × POI) :=
  batches.flatMap (fun b => b.2.map (fun p => (b.1, p)))

/-- The deduplicating aggregation of `_find_micro_gems`: `batches` pairs each
meso-point with the POIs its search returned; `dist` stands for
`haversine_distance`. -/
def find_micro_gems (dist : Coordinates → Coordinates → ℚ)
    (batches : List (Coordinates × List POI)) : List POI :=
  (poiStream batches).foldl (mergeStep dist) []

/-! ## Constraint solver — `ConstraintSolver`
(`src/backend/app/services/constraint_solver.py`)

Timestamps are rationals (seconds); a day is 86400 s. A Python datetime
string field is modelled by its parse classification: `DtStr.valid t` stands
for a well-formed ISO string that `datetime.fromisoformat` parses to time
`t` (writing `arrival_time.isoformat()` produces such a string), and
`DtStr.malformed s` for a string that fails to parse (the empty string ""
among them). The drive-time lookup dict and the haversine-based estimate
`(distance_km * 1.3 / 50) * 3600` are opaque parameters bundled in a
`DriveModel`; every theorem quantifies over them. -/

/-- Classification of a Python datetime-string value. -/
inductive DtStr where
  | valid (t : ℚ)
  | malformed (s : String)
deriving DecidableEq, Repr

/-- Python truthiness of an optional datetime string
(`stop.get("planned_arrival")` as a condition). -/
def dtTruthy : Option DtStr → Bool
  | some (.valid _) => true
  | some (.malformed s) => !(s == "")
  | none => false

/-- `ConstraintSolver._parse_datetime`: `None`/empty → `None`, malformed →
`None`, well-formed → the parsed time. -/
def parseDT : Option DtStr → Option ℚ
  | some (.valid t) => some t
  | _ => none

/-- A stop dict as the solver reads and writes it. `extra` stands for all
further dict entries, which `stop.copy()` carries over untouched. -/
structure Stop where
  id : String
  name : Option String
  coordinates : Coordinates
  is_anchor : Bool
  planned_arrival : Option DtStr
  planned_departure : Option DtStr
  duration_minutes : Option ℚ
  opening_hours : Option String
  extra : List (String × String)
deriving DecidableEq, Repr

/-- Default stop value (used only to totalize list indexing, as Python's
`list[i]` is total on the indices the solver actually uses). -/
def defaultStop : Stop :=
  ⟨"", none, ⟨0, 0⟩, false, none, none, none, none, []⟩

instance : Inhabited Stop := ⟨defaultStop⟩

/-- The trip-data dict fields the solver reads and writes. `date` is the
day number encoded by the `"%Y-%m-%d"` date string. -/
structure TripData where
  start_location : Coordinates
  end_location : Coordinates
  date : Option ℤ
  stops : List Stop
  estimated_arrival : Option DtStr
deriving DecidableEq, Repr

/-- Drive-time sources of `_get_drive_time`: the precomputed
`drive_times` dict (keyed by the coordinate pair) and the haversine-based
estimate, both opaque. -/
structure DriveModel where
  lookup : Coordinates → Coordinates → Option ℚ
  est : Coordinates → Coordinates → ℚ

/-- `ConstraintSolver._get_drive_time`: the precomputed entry if present,
else the estimate. -/
def getDriveTime (dm : DriveModel) (a b : Coordinates) : ℚ :=
  (dm.lookup a b).getD (dm.est a b)

/-- The solver's warnings, modelled by the data interpolated into the
f-string messages. -/
inductive Warning where
  | anchorViolated (name : Option String) (anchorTime expectedTime : ℚ)
  | tooEarly (name : Option String) (arrival : ℚ)
  | tooLate (name : Option String) (arrival : ℚ)
  | overbooked (hours : ℚ)
deriving DecidableEq, Repr

/-- `datetime.hour` of a rational timestamp. -/
def hourOf (t : ℚ) : ℤ :=
  (Int.floor t).emod 86400 / 3600

/-- Departure-time resolution of `ConstraintSolver.__init__`: the explicit
argument if given, else 08:00 (28800 s) on the trip date, defaulting to the
current date `datetime.now().strftime("%Y-%m-%d")` — hence the explicit
wall-clock parameter `now`. -/
def resolveDeparture (departure_time : Option ℚ) (date : Option ℤ)
    (now : ℚ) : ℚ :=
  match departure_time with
  | some t => t
  | none => 86400 * ((date.getD (Int.floor (now / 86400)) : ℤ) : ℚ) + 28800

/-- `ConstraintSolver._forward_pass`: returns the updated stops, the anchor
warnings in emission order, and the final `current_time`/`prev_location`
(from which the caller computes `estimated_arrival`). The `i in anchors`
test is equivalent to the stop's own `is_anchor` flag, since `_find_anchors`
is computed from the same list. In the anchor branch, a parse failure makes
the Python `anchor_time < expected_arrival` comparison raise `TypeError`
(`None < datetime`), landing in the `except` fallback that advances
`current_time` by the drive time; in both anchor sub-branches the stored
`planned_arrival` string is left untouched. -/
def forwardPass (dm : DriveModel) : ℚ → Coordinates → List Stop →
    List Stop × List Warning × ℚ × Coordinates
  | cur, prev, [] => ([], [], cur, prev)
  | cur, prev, s :: rest =>
      let drive := getDriveTime dm prev s.coordinates
      let step :=
        if s.is_anchor && dtTruthy s.planned_arrival then
          match parseDT s.planned_arrival with
          | some anchorTime =>
              (s.planned_arrival,
               if anchorTime < cur + drive then
                 [Warning.anchorViolated s.name anchorTime (cur + drive)]
               else [],
               anchorTime)
          | none => (s.planned_arrival, ([] : List Warning), cur + drive)
        else
          (some (DtStr.valid (cur + drive)), ([] : List Warning), cur + drive)
      let dep := step.2.2 + (s.duration_minutes.getD 30) * 60
      let s' := { s with planned_arrival := step.1,
                         planned_departure := some (DtStr.valid dep) }
      let out := forwardPass dm dep s.coordinates rest
      (s' :: out.1, step.2.1 ++ out.2.1, out.2.2)

/-- Per-stop opening-hours heuristic of `_validate_constraints`: only for a
truthy `opening_hours` tag and a parseable arrival; warn before 07 h or from
20 h on. -/
def stopHoursWarnings (s : Stop) : List Warning :=
  if strTruthy s.opening_hours then
    match parseDT s.planned_arrival with
    | some arr =>
        if hourOf arr < 7 then [Warning.tooEarly s.name arr]
        else if 20 ≤ hourOf arr then [Warning.tooLate s.name arr]
        else []
    | none => []
  else []

/-- Overbooked check of `_validate_constraints`: span from the first stop's
arrival to the last stop's departure above 10 h. -/
def overbookedWarnings (stops : List Stop) : List Warning :=
  match stops.head?, stops.getLast? with
  | some s0, some sn =>
      match parseDT s0.planned_arrival, parseDT sn.planned_departure with
      | some fa, some ld =>
          if (ld - fa) / 3600 > 10 then [Warning.overbooked ((ld - fa) / 3600)]
          else []
      | _, _ => []
  | _, _ => []

/-- `ConstraintSolver._validate_constraints` (its `total_duration_minutes`
accumulator is dead code in the source and carries no effect). -/
def validateConstraints (stops : List Stop) : List Warning :=
  stops.flatMap stopHoursWarnings ++ overbookedWarnings stops

/-- `ConstraintSolver.solve` for an already-resolved departure instant:
empty stop list returns the trip unchanged with no warnings; otherwise the
forward pass updates the stops and `estimated_arrival`, and validation
warnings follow the anchor warnings. -/
def solveAt (dm : DriveModel) (departure : ℚ) (trip : TripData) :
    TripData × List Warning :=
  match trip.stops with
  | [] => (trip, [])
  | s :: rest =>
      let out := forwardPass dm departure trip.start_location (s :: rest)
      let estimated := out.2.2.1 + getDriveTime dm out.2.2.2 trip.end_location
      ({ trip with stops := out.1,
                   estimated_arrival := some (DtStr.valid estimated) },
       out.2.1 ++ validateConstraints out.1)

/-- One solver run: construct `ConstraintSolver(trip, drive_times,
departure_time)` at wall-clock `now` and call `solve()`. -/
def solveRun (dm : DriveModel) (departure_time : Option ℚ) (now : ℚ)
    (trip : TripData) : TripData × List Warning :=
  solveAt dm (resolveDeparture departure_time trip.date now) trip

/-! ### `ConstraintSolver.optimize_stop_order` -/

/-- One iteration of the nearest-stop scan: state is
(`min_time` — `None` for the initial infinity — and `nearest_idx`). -/
def argminStep (dm : DriveModel) (cur : Coordinates)
    (st : Option ℚ × ℕ) (p : ℕ × Stop) : Option ℚ × ℕ :=
  let d := getDriveTime dm cur p.2.coordinates
  match st.1 with
  | none => (some d, p.1)
  | some m => if d < m then (some d, p.1) else st

/-- Index of the first stop at strictly minimal drive time from `cur`
(`min_time = inf; nearest_idx = 0` scan). -/
def argminIdx (dm : DriveModel) (cur : Coordinates) (l : List Stop) : ℕ :=
  (l.enum.foldl (argminStep dm cur) (none, 0)).2

/-- The `while remaining:` nearest-neighbor loop, with fuel equal to the
initial length (the loop pops exactly one stop per iteration). -/
def nnGo (dm : DriveModel) : ℕ → Coordinates → List Stop → List Stop
  | 0, _, _ => []
  | _, _, [] => []
  | fuel + 1, cur, s :: l =>
      let i := argminIdx dm cur (s :: l)
      let nearest := (s :: l).getD i defaultStop
      nearest :: nnGo dm fuel nearest.coordinates ((s :: l).eraseIdx i)

/-- Nearest-neighbor ordering of the unlocked stops. -/
def nnOrder (dm : DriveModel) (cur : Coordinates) (l : List Stop) :
    List Stop :=
  nnGo dm l.length cur l

/-- Re-insertion of the locked stops at `min(orig_idx, len(result))`. -/
def insertLocked (base : List Stop) (locked : List (ℕ × Stop)) : List Stop :=
  locked.foldl (fun acc p => acc.insertIdx (min p.1 acc.length) p.2) base

/-- `ConstraintSolver.optimize_stop_order`. -/
def optimize_stop_order (dm : DriveModel) (trip : TripData) : List Stop :=
  let stops := trip.stops
  if stops.length ≤ 2 then stops
  else
    let locked := stops.enum.filter (fun p => p.2.is_anchor)
    let unlocked := stops.filter (fun s => !s.is_anchor)
    if unlocked.isEmpty then stops
    else insertLocked (nnOrder dm trip.start_location unlocked) locked

/-- A drive model with no precomputed entries and a zero estimate (a valid
instantiation: the haversine estimate is zero between coincident points). -/
def zeroDrive : DriveModel := ⟨fun _ _ => none, fun _ _ => 0⟩

/-- A minimal non-anchor stop used as a concrete probe input. -/
def probeStop : Stop := ⟨"a", none, ⟨1, 1⟩, false, none, none, none, none, []⟩

/-- A one-stop trip without a `date` entry, used as a concrete probe input. -/
def probeTrip : TripData := ⟨⟨0, 0⟩, ⟨1, 1⟩, none, [probeStop], none⟩

/-- The frame of a solver-updated stop: every dict entry other than
`planned_arrival` and `planned_departure` agrees with the input stop. -/
def framePreserved (sOut sIn : Stop) : Prop :=
  sOut.id = sIn.id ∧ sOut.name = sIn.name ∧
  sOut.coordinates = sIn.coordinates ∧ sOut.is_anchor = sIn.is_anchor ∧
  sOut.duration_minutes = sIn.duration_minutes ∧
  sOut.opening_hours = sIn.opening_hours ∧ sOut.extra = sIn.extra

/-- Specification-side view of `optimize_stop_order`'s re-insertion: walk
the original stop list, keeping anchors in place and drawing non-anchor
positions from the reordered list `ord` in order. Used to characterize
`insertLocked`. -/
def interleave : List Stop → List Stop → List Stop
  | [], ord => ord
  | s :: ss, ord =>
      if s.is_anchor then s :: interleave ss ord
      else
        match ord with
        | [] => interleave ss []
        | o :: os => o :: interleave ss os

/-- A cafe within 200 m of `apos` (as a boolean predicate on comfort items). -/
def cafeInRange (dist : Coordinates → Coordinates → ℚ) (apos : Coordinates)
    (c : Item) : Bool :=
  c.tags.amenity == some "cafe" && decide (dist apos (itemPos c) ≤ 200)

/-- A bench within 200 m of `apos`. -/
def benchInRange (dist : Coordinates → Coordinates → ℚ) (apos : Coordinates)
    (c : Item) : Bool :=
  c.tags.amenity == some "bench" && decide (dist apos (itemPos c) ≤ 200)

end VistaTrek

namespace VistaTrek

theorem merge_foldl_characterization (dist : Coordinates → Coordinates → ℚ)
    (stream : List (Coordinates × POI)) (pool : List POI)
    (hnd : (pool.map POI.osm_id).Nodup) :
    ((stream.foldl (mergeStep dist) pool).map POI.osm_id).Nodup ∧
    (∀ oid : ℤ, oid ∈ (stream.foldl (mergeStep dist) pool).map POI.osm_id ↔
      oid ∈ pool.map POI.osm_id ∨ oid ∈ stream.map (fun mp => mp.2.osm_id)) ∧
    (∀ oid : ℤ, (stream.foldl (mergeStep dist) pool).find? (fun p => p.osm_id == oid) =
      (pool.find? (fun p => p.osm_id == oid)).or
        ((stream.find? (fun mp => mp.2.osm_id == oid)).map
          (fun mp => annotate dist mp.1 mp.2))) := by
  induction stream generalizing pool with
  | nil =>
    refine ⟨hnd, by simp, ?_⟩
    intro oid
    simp
  | cons mp rest ih =>
    rw [List.foldl_cons]
    by_cases hmem : poolHas pool mp.2.osm_id
    · have hstep : mergeStep dist pool mp = pool := by
        unfold mergeStep
        rw [if_pos hmem]
      rw [hstep]
      rcases ih pool hnd with ⟨ih1, ih2, ih3⟩
      have hin : mp.2.osm_id ∈ pool.map POI.osm_id := by
        rcases List.any_eq_true.1 hmem with ⟨q, hq, hq2⟩
        exact List.mem_map.2 ⟨q, hq, (beq_iff_eq.1 hq2)⟩
      refine ⟨ih1, ?_, ?_⟩
      · intro oid
        rw [ih2 oid, List.map_cons, List.mem_cons]
        constructor
        · tauto
        · rintro (h | h | h)
          · left; exact h
          · left; rw [h]; exact hin
          · right; exact h
      · intro oid
        rw [ih3 oid, List.find?_cons]
        by_cases heq : (mp.2.osm_id == oid) = true
        · simp only [heq]
          have : (pool.find? (fun p => p.osm_id == oid)).isSome := by
            rw [List.find?_isSome]
            rcases List.mem_map.1 hin with ⟨q, hq, hq2⟩
            refine ⟨q, hq, ?_⟩
            rw [beq_iff_eq, hq2, beq_iff_eq.1 heq]
          rcases Option.isSome_iff_exists.1 this with ⟨q, hq⟩
          rw [hq]
          rfl
        · rw [Bool.not_eq_true] at heq
          simp only [heq]
    · have hstep : mergeStep dist pool mp = pool ++ [annotate dist mp.1 mp.2] := by
        unfold mergeStep
        rw [if_neg hmem]
      have hnotin : mp.2.osm_id ∉ pool.map POI.osm_id := by
        intro hin
        rcases List.mem_map.1 hin with ⟨q, hq, hq2⟩
        exact hmem (List.any_eq_true.2 ⟨q, hq, beq_iff_eq.2 hq2⟩)
      have hosm : (annotate dist mp.1 mp.2).osm_id = mp.2.osm_id := rfl
      have hnd' : ((pool ++ [annotate dist mp.1 mp.2]).map POI.osm_id).Nodup := by
        rw [List.map_append]
        refine List.nodup_append.2 ⟨hnd, by simp, ?_⟩
        intro a ha hb
        simp only [List.map_cons, List.map_nil, List.mem_singleton, hosm] at hb
        rw [hb] at ha
        exact hnotin ha
      rw [hstep]
      rcases ih _ hnd' with ⟨ih1, ih2, ih3⟩
      refine ⟨ih1, ?_, ?_⟩
      · intro oid
        rw [ih2 oid, List.map_append, List.map_cons]
        simp only [List.mem_append, List.map_cons, List.map_nil,
          List.mem_singleton, List.mem_cons, hosm]
        tauto
      · intro oid
        rw [ih3 oid, List.find?_append]
        by_cases heq : (mp.2.osm_id == oid) = true
        · have hpool : pool.find? (fun p => p.osm_id == oid) = none := by
            rw [List.find?_eq_none]
            intro q hq hq2
            rw [beq_iff_eq] at heq hq2
            rw [← heq] at hq2
            exact hnotin (List.mem_map.2 ⟨q, hq, hq2⟩)
          simp only [List.find?_cons, List.find?_nil, hosm, heq, hpool]
          rfl
        · rw [Bool.not_eq_true] at heq
          simp only [List.find?_cons, List.find?_nil, hosm, heq]
          cases pool.find? (fun p => p.osm_id == oid) <;> rfl

/-- C7: the merged POI pool deduplicates by OSM id — ids in the pool are
pairwise distinct, an id is in the pool exactly when some query returned it,
and the pool's entry for an id is the first-seen instance (annotated with its
distance from the meso-point where it was first discovered). -/
theorem poi_merge_dedup_first_seen (dist : Coordinates → Coordinates → ℚ)
    (batches : List (Coordinates × List POI)) :
    ((find_micro_gems dist batches).map POI.osm_id).Nodup ∧
    (∀ oid : ℤ, oid ∈ (find_micro_gems dist batches).map POI.osm_id ↔
      oid ∈ (poiStream batches).map (fun mp => mp.2.osm_id)) ∧
    (∀ oid : ℤ,
      (find_micro_gems dist batches).find? (fun p => p.osm_id == oid) =
        ((poiStream batches).find? (fun mp => mp.2.osm_id == oid)).map
          (fun mp => annotate dist mp.1 mp.2)) := by
  unfold find_micro_gems
  rcases merge_foldl_characterization dist (poiStream batches) [] (by simp)
    with ⟨h1, h2, h3⟩
  refine ⟨h1, ?_, ?_⟩
  · intro oid
    rw [h2 oid]
    simp
  · intro oid
    rw [h3 oid]
    simp


/-- C3 (counterexample): at an 80 km route the source truncates 80/30 down to
2 meso-points, while the spec's `clamp(round(d/1000/30), 2, 8)` formula gives
3; the claimed equality fails at `d = 80000`. -/
theorem meso_count_80km_code_ne_spec_formula :
    calculate_meso_count 80000 = 2 ∧ specMesoCount 80000 = 3 ∧
      calculate_meso_count 80000 ≠ specMesoCount 80000 := by
  have h1 : calculate_meso_count 80000 = 2 := by
    unfold calculate_meso_count pyInt
    rw [if_neg (by norm_num), show Int.floor ((80000:ℚ)/1000/30) = 2 from
      Int.floor_eq_iff.2 (by norm_num)]
    decide
  have h2 : specMesoCount 80000 = 3 := by
    unfold specMesoCount
    rw [show Int.floor ((80000:ℚ)/1000/30 + 1/2) = 3 from
      Int.floor_eq_iff.2 (by norm_num)]
    decide
  exact ⟨h1, h2, by rw [h1, h2]; decide⟩

/-- C3 (amended): for every nonnegative distance `d` the number of requested
meso-points equals `clamp(floor(d/1000/30), 2, 8)` — the source truncates
rather than rounds — and routes of 20 km, 90 km and 300 km yield counts
2, 3 and 8 respectively. -/
theorem meso_count_clamped_floor :
    (∀ d : ℚ, 0 ≤ d → calculate_meso_count d = max 2 (min 8 (Int.floor (d / 30000)))) ∧
      calculate_meso_count 20000 = 2 ∧ calculate_meso_count 90000 = 3 ∧
      calculate_meso_count 300000 = 8 := by
  have key : ∀ d : ℚ, 0 ≤ d →
      calculate_meso_count d = max 2 (min 8 (Int.floor (d / 30000))) := by
    intro d hd
    unfold calculate_meso_count pyInt
    rw [if_neg (by simp only [not_lt]; positivity), show d / 1000 / 30 = d / 30000 by ring]
  refine ⟨key, ?_, ?_, ?_⟩
  · rw [key 20000 (by norm_num),
      show Int.floor ((20000:ℚ)/30000) = 0 from Int.floor_eq_iff.2 (by norm_num)]
    decide
  · rw [key 90000 (by norm_num),
      show Int.floor ((90000:ℚ)/30000) = 3 from Int.floor_eq_iff.2 (by norm_num)]
    decide
  · rw [key 300000 (by norm_num),
      show Int.floor ((300000:ℚ)/30000) = 10 from Int.floor_eq_iff.2 (by norm_num)]
    decide

theorem meso_count_clamped_floor_witness :
    calculate_meso_count 45000 = max 2 (min 8 (Int.floor ((45000:ℚ) / 30000))) :=
  meso_count_clamped_floor.1 45000 (by norm_num)

/-- C10: `interpolate_along_route` raises only on an empty polyline; on a
non-empty polyline it clamps out-of-range fractions: any `fraction ≤ 0`
returns the first coordinate and any `fraction ≥ 1` returns the last. -/
theorem interpolate_clamps (dist : Coordinates → Coordinates → ℚ)
    (route_coords : List Coordinates) (fraction : ℚ) :
    (route_coords = [] →
      interpolate_along_route dist route_coords fraction =
        .error "Route must have at least one coordinate") ∧
    (∀ h : route_coords ≠ [],
      (fraction ≤ 0 →
        interpolate_along_route dist route_coords fraction =
          .ok (route_coords.head h)) ∧
      (fraction ≥ 1 →
        interpolate_along_route dist route_coords fraction =
          .ok (route_coords.getLast h))) := by
  refine ⟨?_, ?_⟩
  · intro he; subst he; rfl
  · intro h
    match route_coords with
    | c :: cs =>
      refine ⟨?_, ?_⟩
      · intro hle
        simp only [interpolate_along_route, if_pos hle, List.head_cons]
      · intro hge
        have hnle : ¬ fraction ≤ 0 := by
          intro hle; linarith
        simp only [interpolate_along_route, if_neg hnle, if_pos hge]

/-! ### Lemmas about the stable descending sort -/

theorem mem_insertDescBy {key : α → ℤ} {x y : α} {l : List α} :
    y ∈ insertDescBy key x l ↔ y = x ∨ y ∈ l := by
  induction l with
  | nil => simp [insertDescBy]
  | cons z zs ih =>
    unfold insertDescBy
    by_cases h : key x < key z
    · simp only [if_pos h, List.mem_cons, ih]
      tauto
    · simp only [if_neg h, List.mem_cons]

theorem mem_sortDescBy {key : α → ℤ} {y : α} {l : List α} :
    y ∈ sortDescBy key l ↔ y ∈ l := by
  induction l with
  | nil => simp [sortDescBy]
  | cons z zs ih =>
    unfold sortDescBy
    rw [mem_insertDescBy, List.mem_cons, ih]

theorem insertDescBy_sorted {key : α → ℤ} {x : α} {l : List α}
    (hl : l.Pairwise (fun a b => key b ≤ key a)) :
    (insertDescBy key x l).Pairwise (fun a b => key b ≤ key a) := by
  induction l with
  | nil => simp [insertDescBy]
  | cons z zs ih =>
    unfold insertDescBy
    rcases List.pairwise_cons.1 hl with ⟨hz, hzs⟩
    by_cases h : key x < key z
    · rw [if_pos h]
      refine List.pairwise_cons.2 ⟨?_, ih hzs⟩
      intro y hy
      rcases mem_insertDescBy.1 hy with rfl | hy'
      · exact le_of_lt h
      · exact hz y hy'
    · rw [if_neg h]
      refine List.pairwise_cons.2 ⟨?_, hl⟩
      intro y hy
      rcases List.mem_cons.1 hy with rfl | hy'
      · exact not_lt.1 h
      · exact le_trans (hz y hy') (not_lt.1 h)

theorem sortDescBy_sorted (key : α → ℤ) (l : List α) :
    (sortDescBy key l).Pairwise (fun a b => key b ≤ key a) := by
  induction l with
  | nil => simp [sortDescBy]
  | cons z zs ih => exact insertDescBy_sorted ih

theorem insertDescBy_ties {key : α → ℤ} {r : α → α → Prop} {x : α} {l : List α}
    (hl : l.Pairwise (fun a b => key a = key b → r a b))
    (hx : ∀ z ∈ l, r x z) :
    (insertDescBy key x l).Pairwise (fun a b => key a = key b → r a b) := by
  induction l with
  | nil => simp [insertDescBy]
  | cons z zs ih =>
    unfold insertDescBy
    rcases List.pairwise_cons.1 hl with ⟨hz, hzs⟩
    by_cases h : key x < key z
    · rw [if_pos h]
      refine List.pairwise_cons.2 ⟨?_, ih hzs (fun w hw => hx w (List.mem_cons_of_mem z hw))⟩
      intro y hy hkey
      rcases mem_insertDescBy.1 hy with rfl | hy'
      · exact absurd hkey (ne_of_gt h)
      · exact hz y hy' hkey
    · rw [if_neg h]
      refine List.pairwise_cons.2 ⟨?_, hl⟩
      intro y hy _
      exact hx y hy

theorem sortDescBy_ties {key : α → ℤ} {r : α → α → Prop} {l : List α}
    (hl : l.Pairwise r) :
    (sortDescBy key l).Pairwise (fun a b => key a = key b → r a b) := by
  induction l with
  | nil => simp [sortDescBy]
  | cons z zs ih =>
    rcases List.pairwise_cons.1 hl with ⟨hz, hzs⟩
    exact insertDescBy_ties (ih hzs) (fun w hw => hz w (mem_sortDescBy.1 hw))

theorem insertDescBy_map (key : β → ℤ) (f : α → β) (x : α) (l : List α) :
    insertDescBy key (f x) (l.map f) = (insertDescBy (fun a => key (f a)) x l).map f := by
  induction l with
  | nil => simp [insertDescBy]
  | cons z zs ih =>
    rw [List.map_cons]
    simp only [insertDescBy]
    by_cases h : key (f x) < key (f z)
    · rw [if_pos h, if_pos h, List.map_cons, ih]
    · rw [if_neg h, if_neg h]
      simp

theorem sortDescBy_map (key : β → ℤ) (f : α → β) (l : List α) :
    sortDescBy key (l.map f) = (sortDescBy (fun a => key (f a)) l).map f := by
  induction l with
  | nil => simp [sortDescBy]
  | cons z zs ih =>
    rw [List.map_cons]
    simp only [sortDescBy]
    rw [ih, insertDescBy_map]

theorem enum_pairwise_fst_lt (l : List α) :
    (l.enum).Pairwise (fun p q : ℕ × α => p.1 < q.1) := by
  have h := List.pairwise_lt_range l.length
  rw [← List.enum_map_fst, List.pairwise_map] at h
  exact h

/-! ### The comforts loop characterization -/

theorem comfortFold_score (dist : Coordinates → Coordinates → ℚ)
    (apos : Coordinates) (comforts : List Item) (st : ScoreAcc) :
    (comforts.foldl (comfortStep dist apos) st).score =
      st.score
      + (if !st.has_cafe && comforts.any (cafeInRange dist apos) then 30 else 0)
      + (if !st.has_bench && comforts.any (benchInRange dist apos) then 10 else 0) := by
  induction comforts generalizing st with
  | nil => simp
  | cons c cs ih =>
    rw [List.foldl_cons, ih]
    by_cases hd : dist apos (itemPos c) ≤ 200
    · cases hca : c.tags.amenity == some "cafe" <;>
        cases hcb : c.tags.amenity == some "bench" <;>
        cases hhc : st.has_cafe <;>
        cases hhb : st.has_bench <;>
        simp_all [comfortStep, cafeInRange, benchInRange, hd]
      all_goals omega
    · have hst : comfortStep dist apos st c = st := by
        unfold comfortStep
        rw [if_neg hd]
      have h1 : cafeInRange dist apos c = false := by
        unfold cafeInRange
        simp [hd]
      have h2 : benchInRange dist apos c = false := by
        unfold benchInRange
        simp [hd]
      rw [hst]
      simp only [List.any_cons, h1, h2, Bool.false_or]

/-- C1 (amended): each refreshment bonus is granted independently, at most
once each — +30 whenever some cafe lies within 200 m of the anchor and +10
whenever some bench does, so an anchor with both in range receives both; and
every cluster in the output is the scored image of an input anchor. -/
theorem golden_cluster_refreshment_bonuses_independent
    (dist : Coordinates → Coordinates → ℚ) (items : List Item) :
    (∀ anchor,
      (scoreItem dist (parkingOf items) (comfortsOf items) anchor).score =
        50
        + (if (parkingOf items).any
              (fun p => decide (dist (itemPos anchor) (itemPos p) ≤ 400)) then 20 else 0)
        + (if (comfortsOf items).any (cafeInRange dist (itemPos anchor)) then 30 else 0)
        + (if (comfortsOf items).any (benchInRange dist (itemPos anchor)) then 10 else 0)
        + (if strTruthy anchor.name then 10 else 0)) ∧
    ∀ s ∈ find_golden_clusters dist items,
      ∃ anchor ∈ anchorsOf items,
        s = scoreItem dist (parkingOf items) (comfortsOf items) anchor := by
  constructor
  · intro anchor
    unfold scoreItem
    dsimp only
    rw [comfortFold_score]
    simp only [Bool.not_false, Bool.true_and]
    try omega
  · intro s hs
    have hs' : s ∈ spotsOf dist items := by
      have h1 : s ∈ sortDescBy GoldenSpot.score (spotsOf dist items) :=
        (List.take_sublist 5 _).mem hs
      exact mem_sortDescBy.1 h1
    rcases List.mem_map.1 hs' with ⟨anchor, ha, rfl⟩
    exact ⟨anchor, ha, rfl⟩

/-- C6: the output of `find_golden_clusters` is non-increasing in score and
has length at most 5; it is the 5-element truncation of the full stable
descending sort, in which equal-score clusters retain the order their
anchors were encountered in (strictly increasing original positions). -/
theorem golden_clusters_sorted_top5_stable
    (dist : Coordinates → Coordinates → ℚ) (items : List Item) :
    (find_golden_clusters dist items).length ≤ 5 ∧
    (find_golden_clusters dist items).Pairwise (fun a b => b.score ≤ a.score) ∧
    find_golden_clusters dist items =
      ((sortDescBy (fun p => p.2.score) (spotsOf dist items).enum).map
        Prod.snd).take 5 ∧
    (sortDescBy (fun p => p.2.score) (spotsOf dist items).enum).Pairwise
      (fun p q => p.2.score = q.2.score → p.1 < q.1) := by
  refine ⟨?_, ?_, ?_, ?_⟩
  · unfold find_golden_clusters
    rw [List.length_take]
    exact min_le_left _ _
  · exact (sortDescBy_sorted GoldenSpot.score (spotsOf dist items)).sublist
      (List.take_sublist 5 _)
  · unfold find_golden_clusters
    congr 1
    conv_lhs => rw [show spotsOf dist items = (spotsOf dist items).enum.map Prod.snd
      from (List.enum_map_snd _).symm]
    rw [sortDescBy_map]
  · exact sortDescBy_ties (enum_pairwise_fst_lt _)

/-- C1 (counterexample): an unnamed viewpoint anchor with one cafe and one
bench, all at identical coordinates (geodesic distance 0 ≤ 200 m), no
parking: the source awards BOTH the cafe (+30) and the bench (+10) bonus,
yielding score 90, where the claim allows only the cafe bonus (score 80). -/
theorem golden_cluster_cafe_and_bench_both_scored :
    (find_golden_clusters (fun _ _ => 0)
      [⟨1, 0, 0, ⟨some "viewpoint", none, none⟩, none⟩,
       ⟨2, 0, 0, ⟨none, none, some "bench"⟩, none⟩,
       ⟨3, 0, 0, ⟨none, none, some "cafe"⟩, none⟩]).map GoldenSpot.score
      = [90] ∧ (90 : ℤ) ≠ 50 + 30 := by
  constructor
  · decide
  · decide

theorem interpolate_clamps_witness :
    interpolate_along_route (fun _ _ => 1) [⟨0,0⟩, ⟨3,4⟩] 0 = .ok ⟨0,0⟩ ∧
    interpolate_along_route (fun _ _ => 1) [⟨0,0⟩, ⟨3,4⟩] 2 = .ok ⟨3,4⟩ :=
  ⟨((interpolate_clamps (fun _ _ => 1) [⟨0,0⟩, ⟨3,4⟩] 0).2 (by simp)).1 le_rfl,
   ((interpolate_clamps (fun _ _ => 1) [⟨0,0⟩, ⟨3,4⟩] 2).2 (by simp)).2 (by norm_num)⟩

/-! ### Reordering: structural lemmas -/

theorem argmin_foldl_bound (dm : DriveModel) (cur : Coordinates)
    (pairs : List (ℕ × Stop)) (st : Option ℚ × ℕ) (n : ℕ)
    (hst : st.2 < n) (hp : ∀ p ∈ pairs, p.1 < n) :
    (pairs.foldl (argminStep dm cur) st).2 < n := by
  induction pairs generalizing st with
  | nil => exact hst
  | cons p ps ih =>
    rw [List.foldl_cons]
    refine ih _ ?_ (fun q hq => hp q (List.mem_cons_of_mem p hq))
    unfold argminStep
    rcases st with ⟨m?, i⟩
    cases m? with
    | none => exact hp p (List.mem_cons_self p ps)
    | some m =>
      dsimp only
      by_cases hlt : getDriveTime dm cur p.2.coordinates < m
      · rw [if_pos hlt]
        exact hp p (List.mem_cons_self p ps)
      · rw [if_neg hlt]
        exact hst

theorem argminIdx_lt (dm : DriveModel) (cur : Coordinates) (l : List Stop)
    (hl : l ≠ []) : argminIdx dm cur l < l.length := by
  unfold argminIdx
  refine argmin_foldl_bound dm cur l.enum (none, 0) l.length
    (List.length_pos.2 hl) ?_
  intro p hp
  have h1 : p.1 ∈ l.enum.map Prod.fst := List.mem_map_of_mem Prod.fst hp
  rw [List.enum_map_fst] at h1
  exact List.mem_range.1 h1

theorem nnGo_length (dm : DriveModel) :
    ∀ (fuel : ℕ) (cur : Coordinates) (l : List Stop), l.length ≤ fuel →
      (nnGo dm fuel cur l).length = l.length := by
  intro fuel
  induction fuel with
  | zero =>
    intro cur l hl
    match l with
    | [] => rfl
    | s :: t => exact absurd hl (by simp)
  | succ f ih =>
    intro cur l hl
    match l with
    | [] => rfl
    | s :: t =>
      have hlt : argminIdx dm cur (s :: t) < (s :: t).length :=
        argminIdx_lt dm cur (s :: t) (by simp)
      have herase : ((s :: t).eraseIdx (argminIdx dm cur (s :: t))).length = t.length := by
        rw [List.length_eraseIdx_of_lt hlt]
        rfl
      simp only [nnGo, List.length_cons]
      rw [ih _ _ (by rw [herase]; exact Nat.le_of_succ_le_succ hl), herase]

theorem nnOrder_length (dm : DriveModel) (cur : Coordinates) (l : List Stop) :
    (nnOrder dm cur l).length = l.length :=
  nnGo_length dm l.length cur l le_rfl

theorem insertLocked_cons_shift (o : Stop) (pairs : List (ℕ × Stop)) :
    ∀ base : List Stop,
      insertLocked (o :: base) (pairs.map (Prod.map (· + 1) id)) =
        o :: insertLocked base pairs := by
  induction pairs with
  | nil => intro base; rfl
  | cons p ps ih =>
    intro base
    unfold insertLocked
    rw [List.map_cons, List.foldl_cons, List.foldl_cons]
    show insertLocked ((o :: base).insertIdx
        (min (p.1 + 1) (o :: base).length) p.2) (ps.map (Prod.map (· + 1) id)) =
      o :: insertLocked (base.insertIdx (min p.1 base.length) p.2) ps
    rw [show min (p.1 + 1) (o :: base).length = min p.1 base.length + 1 by
        rw [List.length_cons]; omega,
      List.insertIdx_succ_cons]
    exact ih _

theorem interleave_length :
    ∀ (stops : List Stop) (ord : List Stop),
      ord.length = (stops.filter (fun s => !s.is_anchor)).length →
      (interleave stops ord).length = stops.length := by
  intro stops
  induction stops with
  | nil =>
    intro ord h
    simpa [interleave, List.filter] using h
  | cons s ss ih =>
    intro ord h
    by_cases ha : s.is_anchor
    · have hf : (s :: ss).filter (fun s => !s.is_anchor) =
          ss.filter (fun s => !s.is_anchor) := by
        rw [List.filter_cons]
        simp [ha]
      rw [hf] at h
      simp only [interleave, if_pos ha, List.length_cons, ih ord h]
    · have hf : (s :: ss).filter (fun s => !s.is_anchor) =
          s :: ss.filter (fun s => !s.is_anchor) := by
        rw [List.filter_cons]
        simp [ha]
      rw [hf, List.length_cons] at h
      match ord, h with
      | o :: os, h =>
        simp only [interleave, if_neg ha, List.length_cons]
        exact congrArg Nat.succ (ih os (Nat.succ_injective h))

theorem interleave_getD_anchor :
    ∀ (stops : List Stop) (ord : List Stop),
      ord.length = (stops.filter (fun s => !s.is_anchor)).length →
      ∀ j, j < stops.length → (stops.getD j defaultStop).is_anchor = true →
        (interleave stops ord).getD j defaultStop = stops.getD j defaultStop := by
  intro stops
  induction stops with
  | nil =>
    intro ord _ j hj
    exact absurd hj (by simp)
  | cons s ss ih =>
    intro ord h j hj hja
    by_cases ha : s.is_anchor
    · have hf : (s :: ss).filter (fun s => !s.is_anchor) =
          ss.filter (fun s => !s.is_anchor) := by
        rw [List.filter_cons]; simp [ha]
      rw [hf] at h
      match j with
      | 0 => simp [interleave, if_pos ha]
      | j + 1 =>
        simp only [interleave, if_pos ha, List.getD_cons_succ] at hja ⊢
        exact ih ord h j (Nat.lt_of_succ_lt_succ hj) hja
    · have hf : (s :: ss).filter (fun s => !s.is_anchor) =
          s :: ss.filter (fun s => !s.is_anchor) := by
        rw [List.filter_cons]; simp [ha]
      rw [hf, List.length_cons] at h
      match ord, h with
      | o :: os, h =>
        match j with
        | 0 =>
          simp only [List.getD_cons_zero] at hja
          exact absurd hja (by simp [ha])
        | j + 1 =>
          simp only [interleave, if_neg ha, List.getD_cons_succ] at hja ⊢
          exact ih os (Nat.succ_injective h) j (Nat.lt_of_succ_lt_succ hj) hja

theorem insertLocked_eq_interleave :
    ∀ (stops : List Stop) (ord : List Stop),
      ord.length = (stops.filter (fun s => !s.is_anchor)).length →
      insertLocked ord (stops.enum.filter (fun p => p.2.is_anchor)) =
        interleave stops ord := by
  intro stops
  induction stops with
  | nil => intro ord _; rfl
  | cons s ss ih =>
    intro ord h
    rw [List.enum_cons', List.filter_cons]
    by_cases ha : s.is_anchor
    · have hf : (s :: ss).filter (fun s => !s.is_anchor) =
          ss.filter (fun s => !s.is_anchor) := by
        rw [List.filter_cons]; simp [ha]
      rw [hf] at h
      rw [if_pos ha]
      rw [List.filter_map]
      have hcomp : (fun p : ℕ × Stop => p.2.is_anchor) ∘ Prod.map (· + 1) id =
          fun p : ℕ × Stop => p.2.is_anchor := by
        funext p
        rfl
      rw [hcomp]
      show insertLocked (ord.insertIdx (min 0 ord.length) s)
          ((ss.enum.filter (fun p => p.2.is_anchor)).map (Prod.map (· + 1) id)) =
        interleave (s :: ss) ord
      rw [show min 0 ord.length = 0 from Nat.zero_min _, List.insertIdx_zero,
        insertLocked_cons_shift, ih ord h]
      simp [interleave, ha]
    · have hf : (s :: ss).filter (fun s => !s.is_anchor) =
          s :: ss.filter (fun s => !s.is_anchor) := by
        rw [List.filter_cons]; simp [ha]
      rw [hf, List.length_cons] at h
      rw [if_neg ha]
      rw [List.filter_map]
      have hcomp : (fun p : ℕ × Stop => p.2.is_anchor) ∘ Prod.map (· + 1) id =
          fun p : ℕ × Stop => p.2.is_anchor := by
        funext p
        rfl
      rw [hcomp]
      match ord, h with
      | o :: os, h =>
        rw [insertLocked_cons_shift, ih os (Nat.succ_injective h)]
        simp [interleave, ha]

/-- C5: `optimize_stop_order` preserves the total stop count, and every
anchored stop occupies the same index in the output as in the input. -/
theorem optimize_preserves_count_and_anchors (dm : DriveModel)
    (trip : TripData) :
    (optimize_stop_order dm trip).length = trip.stops.length ∧
    ∀ j, j < trip.stops.length →
      (trip.stops.getD j defaultStop).is_anchor = true →
      (optimize_stop_order dm trip).getD j defaultStop =
        trip.stops.getD j defaultStop := by
  unfold optimize_stop_order
  by_cases h2 : trip.stops.length ≤ 2
  · rw [if_pos h2]
    exact ⟨rfl, fun j _ _ => rfl⟩
  · rw [if_neg h2]
    by_cases hU : (trip.stops.filter (fun s => !s.is_anchor)).isEmpty
    · rw [if_pos hU]
      exact ⟨rfl, fun j _ _ => rfl⟩
    · rw [if_neg hU]
      have hlen : (nnOrder dm trip.start_location
          (trip.stops.filter (fun s => !s.is_anchor))).length =
          (trip.stops.filter (fun s => !s.is_anchor)).length :=
        nnOrder_length dm _ _
      rw [insertLocked_eq_interleave trip.stops _ hlen]
      exact ⟨interleave_length trip.stops _ hlen,
        interleave_getD_anchor trip.stops _ hlen⟩

/-! ### Forward pass: frame and anchor preservation -/

theorem forwardPass_length (dm : DriveModel) :
    ∀ (stops : List Stop) (cur : ℚ) (prev : Coordinates),
      (forwardPass dm cur prev stops).1.length = stops.length := by
  intro stops
  induction stops with
  | nil => intro cur prev; rfl
  | cons s rest ih =>
    intro cur prev
    simp only [forwardPass]
    rw [List.length_cons, List.length_cons, ih]

theorem forwardPass_frame (dm : DriveModel) :
    ∀ (stops : List Stop) (cur : ℚ) (prev : Coordinates) (j : ℕ),
      j < stops.length →
      framePreserved ((forwardPass dm cur prev stops).1.getD j defaultStop)
        (stops.getD j defaultStop) ∧
      ((stops.getD j defaultStop).is_anchor = true →
        dtTruthy (stops.getD j defaultStop).planned_arrival = true →
        ((forwardPass dm cur prev stops).1.getD j defaultStop).planned_arrival =
          (stops.getD j defaultStop).planned_arrival) := by
  intro stops
  induction stops with
  | nil =>
    intro cur prev j hj
    exact absurd hj (by simp)
  | cons s rest ih =>
    intro cur prev j hj
    match j with
    | 0 =>
      constructor
      · exact ⟨rfl, rfl, rfl, rfl, rfl, rfl, rfl⟩
      · intro ha ht
        simp only [List.getD_cons_zero] at ha ht ⊢
        have hb : (s.is_anchor && dtTruthy s.planned_arrival) = true := by
          rw [Bool.and_eq_true]
          exact ⟨ha, ht⟩
        cases hp : parseDT s.planned_arrival with
        | some t => simp [forwardPass, hb, hp]
        | none => simp [forwardPass, hb, hp]
    | j + 1 =>
      simp only [forwardPass, List.getD_cons_succ]
      exact ih _ _ j (Nat.lt_of_succ_lt_succ hj)

/-- C9: `solve` preserves the stop list's length and order — the output stop
at each index is derived from the input stop at the same index, with every
field other than `planned_arrival` and `planned_departure` unchanged. -/
theorem solve_preserves_frame (dm : DriveModel) (departure_time : Option ℚ)
    (now : ℚ) (trip : TripData) :
    (solveRun dm departure_time now trip).1.stops.length = trip.stops.length ∧
    ∀ j, j < trip.stops.length →
      framePreserved
        ((solveRun dm departure_time now trip).1.stops.getD j defaultStop)
        (trip.stops.getD j defaultStop) := by
  unfold solveRun solveAt
  cases hstops : trip.stops with
  | nil =>
    refine ⟨by rw [hstops], ?_⟩
    intro j hj
    exact absurd hj (by simp)
  | cons s rest =>
    constructor
    · rw [forwardPass_length]
    · intro j hj
      exact (forwardPass_frame dm (s :: rest) _ _ j hj).1

theorem solve_preserves_frame_witness :
    ((solveRun ⟨fun _ _ => none, fun _ _ => 0⟩ (some 0) 0
        ⟨⟨0, 0⟩, ⟨1, 1⟩, none,
          [⟨"a", some "A", ⟨1, 1⟩, false, none, none, some 15, none,
            [("note", "x")]⟩], none⟩).1.stops.length = 1) ∧
    framePreserved
      ((solveRun ⟨fun _ _ => none, fun _ _ => 0⟩ (some 0) 0
        ⟨⟨0, 0⟩, ⟨1, 1⟩, none,
          [⟨"a", some "A", ⟨1, 1⟩, false, none, none, some 15, none,
            [("note", "x")]⟩], none⟩).1.stops.getD 0 defaultStop)
      (⟨"a", some "A", ⟨1, 1⟩, false, none, none, some 15, none,
        [("note", "x")]⟩ : Stop) :=
  ⟨(solve_preserves_frame _ _ _ _).1,
   (solve_preserves_frame _ _ _ _).2 0 (by decide)⟩

/-- C2: for an anchor stop carrying a (truthy) `planned_arrival`, `solve`
returns that stop with `planned_arrival` exactly equal to its input value,
whatever warnings are emitted. -/
theorem solve_preserves_anchor_arrival (dm : DriveModel)
    (departure_time : Option ℚ) (now : ℚ) (trip : TripData) (j : ℕ)
    (hj : j < trip.stops.length)
    (ha : (trip.stops.getD j defaultStop).is_anchor = true)
    (ht : dtTruthy (trip.stops.getD j defaultStop).planned_arrival = true) :
    ((solveRun dm departure_time now trip).1.stops.getD j
        defaultStop).planned_arrival =
      (trip.stops.getD j defaultStop).planned_arrival := by
  unfold solveRun solveAt
  cases hstops : trip.stops with
  | nil =>
    rw [hstops] at hj
    exact absurd hj (by simp)
  | cons s rest =>
    rw [hstops] at hj ha ht
    exact (forwardPass_frame dm (s :: rest) _ _ j hj).2 ha ht

theorem solve_preserves_anchor_arrival_witness :
    ((solveRun ⟨fun _ _ => none, fun _ _ => 0⟩ (some 0) 0
        ⟨⟨0, 0⟩, ⟨1, 1⟩, none,
          [⟨"a", none, ⟨1, 1⟩, true, some (DtStr.valid 1000), none, none,
            none, []⟩], none⟩).1.stops.getD 0 defaultStop).planned_arrival =
      some (DtStr.valid 1000) :=
  solve_preserves_anchor_arrival _ _ _ _ 0 (by decide) (by decide) (by decide)

/-- C8: `solve` on an empty stop list returns the trip data unchanged
(`estimated_arrival` included) and an empty warning list. -/
theorem solve_empty_is_noop (dm : DriveModel) (departure_time : Option ℚ)
    (now : ℚ) (trip : TripData) (h : trip.stops = []) :
    solveRun dm departure_time now trip = (trip, []) := by
  unfold solveRun solveAt
  rw [h]

theorem solve_empty_is_noop_witness :
    solveRun ⟨fun _ _ => none, fun _ _ => 0⟩ none 0
        ⟨⟨0, 0⟩, ⟨1, 1⟩, some 20000, [], none⟩ =
      (⟨⟨0, 0⟩, ⟨1, 1⟩, some 20000, [], none⟩, []) :=
  solve_empty_is_noop _ _ _ _ rfl

/-- C4 (amended): a solve is deterministic in its explicit inputs whenever
an explicit departure time is supplied or the trip data carries a date —
under that proviso the wall clock cannot influence the result, so two runs
from identical inputs agree on every timestamp. -/
theorem solve_deterministic_given_date (dm : DriveModel)
    (departure_time : Option ℚ) (now1 now2 : ℚ) (trip : TripData)
    (h : departure_time.isSome ∨ trip.date.isSome) :
    solveRun dm departure_time now1 trip = solveRun dm departure_time now2 trip := by
  unfold solveRun
  suffices hdep : resolveDeparture departure_time trip.date now1 =
      resolveDeparture departure_time trip.date now2 by
    rw [hdep]
  cases hd : departure_time with
  | some t => rfl
  | none =>
    cases hdate : trip.date with
    | some d => rfl
    | none =>
      rw [hd, hdate] at h
      simp at h

/-- C4 (counterexample): with no explicit departure time and no `date`
entry in the trip data, the default departure falls back to
`datetime.now()`'s date — two runs with identical stop list, identical
(absent) departure-time argument and identical drive-time lookup, executed
on different days, produce different planned arrivals. -/
theorem solve_wall_clock_dependence :
    (solveRun zeroDrive none 0 probeTrip).1.stops.map Stop.planned_arrival ≠
      (solveRun zeroDrive none 86400 probeTrip).1.stops.map
        Stop.planned_arrival := by
  have h0 : resolveDeparture none probeTrip.date 0 = 28800 := by
    simp [resolveDeparture, probeTrip]
  have h1 : resolveDeparture none probeTrip.date 86400 = 115200 := by
    simp [resolveDeparture, probeTrip]
    norm_num
  unfold solveRun
  rw [h0, h1]
  norm_num [solveAt, probeTrip, probeStop, zeroDrive, getDriveTime,
    forwardPass, validateConstraints, stopHoursWarnings, overbookedWarnings,
    dtTruthy, parseDT, strTruthy]

theorem solve_deterministic_given_date_witness :
    solveRun ⟨fun _ _ => none, fun _ _ => 0⟩ (some 0) 0
        ⟨⟨0, 0⟩, ⟨1, 1⟩, none,
          [⟨"a", none, ⟨1, 1⟩, false, none, none, none, none, []⟩], none⟩ =
      solveRun ⟨fun _ _ => none, fun _ _ => 0⟩ (some 0) 86400
        ⟨⟨0, 0⟩, ⟨1, 1⟩, none,
          [⟨"a", none, ⟨1, 1⟩, false, none, none, none, none, []⟩], none⟩ :=
  solve_deterministic_given_date _ _ _ _ _ (Or.inl rfl)

theorem optimize_preserves_witness :
    (optimize_stop_order ⟨fun _ _ => none, fun _ _ => 0⟩
        ⟨⟨0, 0⟩, ⟨9, 9⟩, none,
          [⟨"a", none, ⟨1, 1⟩, false, none, none, none, none, []⟩,
           ⟨"b", none, ⟨2, 2⟩, true, none, none, none, none, []⟩,
           ⟨"c", none, ⟨3, 3⟩, false, none, none, none, none, []⟩], none⟩).getD
      1 defaultStop =
    ⟨"b", none, ⟨2, 2⟩, true, none, none, none, none, []⟩ :=
  (optimize_preserves_count_and_anchors _ _).2 1 (by decide) (by decide)

end VistaTrek
